import Mathlib

/-!
Shallow embedding of the coordination-research-prototypes repository:
`src/file_locking.py` (FileLockCoordinator), `src/heartbeat_monitor.py`
(HeartbeatMonitor) and `src/task_delegation.py` (TaskDelegationSystem).

Timestamps (Python `time.time()` floats) are modelled as `Int`; Python
strings that are split on commas are modelled as `List Char` (the field
`data` of a Lean `String`), so that the exact semantics of Python's
`",".join(...)` and `s.split(",")` can be reproduced; other strings are
Lean `String`s.  SQLite tables are lists of row structures, in rowid
order: `INSERT` appends at the end, `DELETE ... WHERE` is `List.filter`
with the negated condition, `UPDATE ... WHERE` is `List.map` with a
conditional rewrite, `cursor.rowcount` is the number of rows matched,
and a scalar subquery / `fetchone` is `List.find?`.
-/

namespace Coordination

/-- Characters of a Python string (used for capability strings that the
source joins and splits on commas). -/
abbrev PyStr := List Char

/-! ## FileLockCoordinator (`src/file_locking.py`) -/

/-- Row of the `file_locks` table (`file_path` is the primary key). -/
structure LockRow where
  file_path : String
  agent_id : String
  oper : String
  lock_time : Int
  expires_at : Int
deriving DecidableEq, Repr

/-- Fixed lease duration: `lock_expiration = 300` seconds in `acquire_lock`. -/
def lock_expiration : Int := 300

/-- Lazy-expiry sweep executed by `acquire_lock` and `get_all_locks`:
`DELETE FROM file_locks WHERE expires_at < now`. -/
def sweepLocks (now : Int) (st : List LockRow) : List LockRow :=
  st.filter (fun r => !(r.expires_at < now : Bool))

/-- One iteration of the `acquire_lock` polling loop body (executed under
`self.lock`): sweep expired rows, `SELECT ... WHERE file_path = path`,
and if no row exists insert a fresh lock expiring at `now + 300`.
Returns whether the lock was acquired together with the new table. -/
def acquireStep (agent path oper : String) (now : Int) (st : List LockRow) :
    Bool × List LockRow :=
  let st1 := sweepLocks now st
  match st1.find? (fun r => r.file_path == path) with
  | some _ => (false, st1)
  | none => (true, st1 ++ [⟨path, agent, oper, now, now + lock_expiration⟩])

/-- `acquire_lock`: poll until the deadline.  The successive values of
`time.time()` observed at each loop iteration are supplied as the list
`polls` (each iteration's sweep, occupancy check and insert all read the
clock within a fraction of a second; they are identified with the
iteration's poll time).  The loop runs while `t - start < timeout`. -/
def acquire_lock (agent path oper : String) (timeout start : Int) :
    List Int → List LockRow → Bool × List LockRow
  | [], st => (false, st)
  | t :: ts, st =>
    if t - start < timeout then
      match acquireStep agent path oper t st with
      | (true, st1) => (true, st1)
      | (false, st1) => acquire_lock agent path oper timeout start ts st1
    else (false, st)

/-- `release_lock`: `DELETE FROM file_locks WHERE file_path = ? AND
agent_id = ?`; returns `rows_deleted > 0`. -/
def release_lock (agent path : String) (st : List LockRow) :
    Bool × List LockRow :=
  let deleted := st.countP (fun r => r.file_path == path && r.agent_id == agent)
  (decide (0 < deleted),
   st.filter (fun r => !(r.file_path == path && r.agent_id == agent)))

/-- `get_all_locks` sweeps expired rows first; its effect on the table. -/
def get_all_locks_state (now : Int) (st : List LockRow) : List LockRow :=
  sweepLocks now st

/-- Atomic store operations on the `file_locks` table: one `acquire_lock`
poll iteration (the body holds `self.lock`), a `release_lock`, or the
sweep performed by `get_all_locks`.  An arbitrary interleaving of calls
by any agents is a list of these steps. -/
inductive LockOp where
  | poll (agent path oper : String) (now : Int)
  | rel (agent path : String)
  | list (now : Int)
deriving Repr

/-- Effect of one atomic lock operation on the table. -/
def lockStep (st : List LockRow) : LockOp → List LockRow
  | .poll a p o n => (acquireStep a p o n st).2
  | .rel a p => (release_lock a p st).2
  | .list n => get_all_locks_state n st

/-- Run a sequence of interleaved lock operations. -/
def runLockOps (st : List LockRow) (ops : List LockOp) : List LockRow :=
  ops.foldl lockStep st

/-- The table invariant: at most one row per `file_path`. -/
def uniquePaths (st : List LockRow) : Prop :=
  (st.map (fun r => r.file_path)).Nodup

/-! ## Python comma join and split -/

/-- Python `sep.join(l)` on character lists. -/
def pyJoin (sep : Char) : List PyStr → PyStr
  | [] => []
  | [x] => x
  | x :: y :: xs => x ++ sep :: pyJoin sep (y :: xs)

/-- Worker for `pySplit`: `acc` holds the reversed current fragment. -/
def pySplitAux (sep : Char) : PyStr → PyStr → List PyStr
  | [], acc => [acc.reverse]
  | c :: cs, acc =>
    if c = sep then acc.reverse :: pySplitAux sep cs []
    else pySplitAux sep cs (c :: acc)

/-- Python `s.split(sep)` for a one-character separator; in particular
`pySplit sep [] = [[]]`, matching Python's `"".split(",") == [""]`. -/
def pySplit (sep : Char) (s : PyStr) : List PyStr :=
  pySplitAux sep s []

/-- The source's read-back of a stored capabilities column:
`caps_str.split(",") if caps_str else []`. -/
def parseCaps (s : PyStr) : List PyStr :=
  if s = [] then [] else pySplit ',' s

/-! ## HeartbeatMonitor (`src/heartbeat_monitor.py`) -/

/-- Row of the `active_agents` table (`agent_id` is the primary key). -/
structure AgentRow where
  agent_id : String
  capabilities : PyStr
  status : String
  last_heartbeat : Int
  registered_at : Int
  workload : Int
deriving DecidableEq, Repr

/-- Dictionary built by `get_active_agents` for each returned row. -/
structure AgentView where
  agent_id : String
  capabilities : List PyStr
  status : String
  last_heartbeat : Int
  registered_at : Int
  workload : Int
  age_seconds : Int
deriving DecidableEq, Repr

/-- Dictionary built by `get_agent_status`. -/
structure AgentStatusView where
  agent_id : String
  capabilities : List PyStr
  status : String
  last_heartbeat : Int
  registered_at : Int
  workload : Int
  time_since_heartbeat : Int
  is_alive : Bool
deriving DecidableEq, Repr

/-- `register_agent`: `INSERT OR REPLACE INTO active_agents ...` with
`capabilities_str = ",".join(capabilities)`, both timestamps set to
`now` and workload 0.  SQLite's `INSERT OR REPLACE` deletes the row
with the conflicting primary key and appends the replacement with a
fresh rowid.  Always returns `True`. -/
def register_agent (aid : String) (caps : List PyStr) (status : String)
    (now : Int) (st : List AgentRow) : Bool × List AgentRow :=
  (true,
   st.filter (fun r => !(r.agent_id == aid)) ++
     [⟨aid, pyJoin ',' caps, status, now, now, 0⟩])

/-- `send_heartbeat`: `UPDATE active_agents SET last_heartbeat = now
[, status = status] WHERE agent_id = ?`; the status column is written
only when the argument is truthy (not `None` and not `""`).  Returns
`rows_updated > 0`. -/
def send_heartbeat (aid : String) (status : Option String) (now : Int)
    (st : List AgentRow) : Bool × List AgentRow :=
  let newStatus : AgentRow → String := fun r =>
    match status with
    | some s => if s == "" then r.status else s
    | none => r.status
  (decide (0 < st.countP (fun r => r.agent_id == aid)),
   st.map (fun r =>
     if r.agent_id == aid then
       { r with last_heartbeat := now, status := newStatus r }
     else r))

/-- `get_active_agents`: rows with `last_heartbeat > now - θ`
(`θ = self.timeout_seconds`), skipping — when `capability_filter` is
truthy, i.e. a non-empty list — every agent missing one of the required
capabilities. -/
def get_active_agents (θ now : Int) (capFilter : List PyStr)
    (st : List AgentRow) : List AgentView :=
  (st.filter (fun r => decide (now - θ < r.last_heartbeat))).filterMap
    (fun r =>
      let caps := parseCaps r.capabilities
      if capFilter.isEmpty || capFilter.all (fun c => caps.contains c) then
        some ⟨r.agent_id, caps, r.status, r.last_heartbeat, r.registered_at,
              r.workload, now - r.last_heartbeat⟩
      else none)

/-- `cleanup_stale_agents`: `DELETE FROM active_agents WHERE
last_heartbeat < now - θ`; returns the number of rows removed together
with the remaining table. -/
def cleanup_stale_agents (θ now : Int) (st : List AgentRow) :
    Nat × List AgentRow :=
  (st.countP (fun r => decide (r.last_heartbeat < now - θ)),
   st.filter (fun r => !decide (r.last_heartbeat < now - θ)))

/-- `unregister_agent`: `DELETE FROM active_agents WHERE agent_id = ?`;
returns `rows_deleted > 0`. -/
def unregister_agent (aid : String) (st : List AgentRow) :
    Bool × List AgentRow :=
  (decide (0 < st.countP (fun r => r.agent_id == aid)),
   st.filter (fun r => !(r.agent_id == aid)))

/-- `get_agent_status`: point lookup with the derived
`time_since_heartbeat` and `is_alive` fields. -/
def get_agent_status (θ now : Int) (aid : String) (st : List AgentRow) :
    Option AgentStatusView :=
  (st.find? (fun r => r.agent_id == aid)).map (fun r =>
    ⟨r.agent_id, parseCaps r.capabilities, r.status, r.last_heartbeat,
     r.registered_at, r.workload, now - r.last_heartbeat,
     decide (now - r.last_heartbeat < θ)⟩)

/-! ## TaskDelegationSystem (`src/task_delegation.py`) -/

/-- Row of the `delegated_tasks` table (`task_id` is the primary key;
`success` is stored as the integers 1/0, modelled as `Bool`). -/
structure TaskRow where
  task_id : String
  task_type : String
  descr : String
  required_capabilities : PyStr
  priority : Int
  status : String
  parent_agent_id : Option String
  assigned_agent_id : Option String
  created_at : Int
  claimed_at : Option Int
  completed_at : Option Int
  result : Option String
  success : Bool
deriving DecidableEq, Repr

/-- The shared database: the `active_agents` and `delegated_tasks`
tables (the coordinator classes all open the same SQLite file). -/
structure Store where
  agents : List AgentRow
  tasks : List TaskRow
deriving DecidableEq, Repr

/-- Dictionary returned by `delegate_task` (the constant
`message` entry is omitted). -/
structure DelegateResult where
  task_id : String
  assigned_agent : Option String
  status : String
deriving DecidableEq, Repr

/-- Insertion step for `sortByWorkload`. -/
def insertByWorkload (a : AgentRow) : List AgentRow → List AgentRow
  | [] => [a]
  | b :: bs =>
    if a.workload ≤ b.workload then a :: b :: bs
    else b :: insertByWorkload a bs

/-- Deterministic model of SQL `ORDER BY workload ASC` (any stable
order among equal workloads is permitted by SQL; insertion sort picks
one). -/
def sortByWorkload : List AgentRow → List AgentRow
  | [] => []
  | a :: rest => insertByWorkload a (sortByWorkload rest)

/-- Capability test used by `delegate_task`:
`all(cap in agent_caps for cap in required_capabilities)` where
`agent_caps = caps_str.split(",") if caps_str else []`. -/
def capMatch (reqCaps : List PyStr) (capsStr : PyStr) : Bool :=
  reqCaps.all (fun c => (parseCaps capsStr).contains c)

/-- The `capable_agents` list that `delegate_task` builds: active
agents (`last_heartbeat > now - 60`, the constant hardcoded in the
source) ordered by ascending workload, filtered by capabilities. -/
def delegEligible (now : Int) (reqCaps : List PyStr)
    (agents : List AgentRow) : List AgentRow :=
  (sortByWorkload
      (agents.filter (fun r => decide (now - 60 < r.last_heartbeat)))).filter
    (fun r => capMatch reqCaps r.capabilities)

/-- One row's effect of `UPDATE active_agents SET workload = workload +
δ WHERE agent_id = a` (`δ = 1` in `delegate_task`, `δ = -1` in
`complete_task`). -/
def bumpWorkload (a : String) (δ : Int) (r : AgentRow) : AgentRow :=
  if r.agent_id == a then { r with workload := r.workload + δ } else r

/-- `delegate_task`: when `required_capabilities` is truthy (non-empty),
select the head of `capable_agents` (lowest workload) and increment its
workload; otherwise leave the task unassigned.  Always insert the task
row with status `pending`.  The generated `task_id` (a uuid in the
source) is passed in as `tid`. -/
def delegate_task (tid descr ttype : String) (reqCaps : List PyStr)
    (priority : Int) (parent : Option String) (now : Int) (st : Store) :
    DelegateResult × Store :=
  let assigned : Option String :=
    if reqCaps.isEmpty then none
    else ((delegEligible now reqCaps st.agents).head?).map
      (fun r => r.agent_id)
  let agents1 : List AgentRow :=
    match assigned with
    | some a => st.agents.map (bumpWorkload a 1)
    | none => st.agents
  let capsStr : PyStr := if reqCaps.isEmpty then [] else pyJoin ',' reqCaps
  let task : TaskRow :=
    ⟨tid, ttype, descr, capsStr, priority, "pending", parent, assigned,
     now, none, none, none, true⟩
  (⟨tid, assigned, "pending"⟩, ⟨agents1, st.tasks ++ [task]⟩)

/-- One row's effect of `claim_task`'s first statement: `UPDATE
delegated_tasks SET status = 'claimed', claimed_at = now WHERE task_id =
tid AND (assigned_agent_id = aid OR assigned_agent_id IS NULL)`. -/
def claimUpd1 (tid aid : String) (now : Int) (t : TaskRow) : TaskRow :=
  if t.task_id == tid &&
      (t.assigned_agent_id == some aid || t.assigned_agent_id == none) then
    { t with status := "claimed", claimed_at := some now }
  else t

/-- One row's effect of `claim_task`'s second statement: `UPDATE
delegated_tasks SET assigned_agent_id = aid WHERE task_id = tid AND
assigned_agent_id IS NULL`. -/
def claimUpd2 (tid aid : String) (t : TaskRow) : TaskRow :=
  if t.task_id == tid && t.assigned_agent_id == none then
    { t with assigned_agent_id := some aid }
  else t

/-- `claim_task`: the two UPDATE statements above, in order.  The
returned boolean is `rows_updated > 0` for the SECOND statement only
(`cursor.rowcount` is read after it). -/
def claim_task (tid aid : String) (now : Int) (st : Store) : Bool × Store :=
  let tasks1 := st.tasks.map (claimUpd1 tid aid now)
  let matched2 := tasks1.countP (fun t =>
    t.task_id == tid && t.assigned_agent_id == none)
  let tasks2 := tasks1.map (claimUpd2 tid aid)
  (decide (0 < matched2), ⟨st.agents, tasks2⟩)

/-- One row's effect of `complete_task`'s task UPDATE: set status to
`completed`/`failed`, record `completed_at`, `result` and `success`. -/
def completeUpd (tid result : String) (success : Bool) (now : Int)
    (t : TaskRow) : TaskRow :=
  if t.task_id == tid then
    { t with status := if success then "completed" else "failed",
             completed_at := some now, result := some result,
             success := success }
  else t

/-- `complete_task`: `UPDATE delegated_tasks ... WHERE task_id = ?`
(returns `rows_updated > 0` of this statement), then `UPDATE
active_agents SET workload = workload - 1 WHERE agent_id = (SELECT
assigned_agent_id FROM delegated_tasks WHERE task_id = ?)` — a NULL or
empty scalar subquery matches no agent row. -/
def complete_task (tid result : String) (success : Bool) (now : Int)
    (st : Store) : Bool × Store :=
  let matched := st.tasks.countP (fun t => t.task_id == tid)
  let tasks1 := st.tasks.map (completeUpd tid result success now)
  let assignee : Option String :=
    (tasks1.find? (fun t => t.task_id == tid)).bind
      (fun t => t.assigned_agent_id)
  let agents1 : List AgentRow :=
    match assignee with
    | some a => st.agents.map (bumpWorkload a (-1))
    | none => st.agents
  (decide (0 < matched), ⟨agents1, tasks1⟩)

/-- Dictionary returned by `get_task_status` (capabilities split back
out of the stored string). -/
structure TaskView where
  task_id : String
  task_type : String
  descr : String
  required_capabilities : List PyStr
  priority : Int
  status : String
  parent_agent_id : Option String
  assigned_agent_id : Option String
  created_at : Int
  claimed_at : Option Int
  completed_at : Option Int
  result : Option String
  success : Bool
deriving DecidableEq, Repr

/-- `get_task_status`: point lookup of the full task state. -/
def get_task_status (tid : String) (st : Store) : Option TaskView :=
  (st.tasks.find? (fun t => t.task_id == tid)).map (fun t =>
    ⟨t.task_id, t.task_type, t.descr, parseCaps t.required_capabilities,
     t.priority, t.status, t.parent_agent_id, t.assigned_agent_id,
     t.created_at, t.claimed_at, t.completed_at, t.result, t.success⟩)

/-- Workload of the first agent row with the given id (the unique row,
under the primary-key invariant). -/
def workloadOf (agents : List AgentRow) (aid : String) : Option Int :=
  (agents.find? (fun r => r.agent_id == aid)).map (fun r => r.workload)

/-- Sequential calls on the shared store: register, heartbeat, delegate
and claim (`complete_task` is treated separately, since it can drive a
workload negative). -/
inductive SysOp where
  | reg (aid : String) (caps : List PyStr) (status : String) (now : Int)
  | hb (aid : String) (status : Option String) (now : Int)
  | deleg (tid descr ttype : String) (reqCaps : List PyStr) (priority : Int)
      (parent : Option String) (now : Int)
  | claim (tid aid : String) (now : Int)
deriving Repr

/-- Effect of one sequential call on the shared store. -/
def sysStep (st : Store) : SysOp → Store
  | .reg aid caps s n => ⟨(register_agent aid caps s n st.agents).2, st.tasks⟩
  | .hb aid s n => ⟨(send_heartbeat aid s n st.agents).2, st.tasks⟩
  | .deleg tid d t rc p par n => (delegate_task tid d t rc p par n st).2
  | .claim tid aid n => (claim_task tid aid n st).2

/-- Run a sequence of sequential calls. -/
def runSys (st : Store) (ops : List SysOp) : Store :=
  ops.foldl sysStep st

/-- All agent workloads are non-negative. -/
def workloadsNonneg (st : Store) : Prop :=
  ∀ r ∈ st.agents, 0 ≤ r.workload

theorem find?_append_of_none {α : Type} (p : α → Bool) (l1 l2 : List α)
    (h : ∀ x ∈ l1, ¬ p x = true) : (l1 ++ l2).find? p = l2.find? p := by
  induction l1 with
  | nil => rfl
  | cons x l1 ih =>
    have hx : p x = false := by
      cases hpx : p x with
      | false => rfl
      | true => exact absurd hpx (h x (List.mem_cons_self x l1))
    simp only [List.cons_append, List.find?_cons, hx]
    exact ih (fun y hy => h y (List.mem_cons_of_mem x hy))

theorem uniquePaths_filter (p : LockRow → Bool) (st : List LockRow)
    (h : uniquePaths st) : uniquePaths (st.filter p) :=
  List.Nodup.sublist (List.Sublist.map _ (List.filter_sublist st)) h

theorem acquireStep_uniquePaths (a p o : String) (n : Int) (st : List LockRow)
    (h : uniquePaths st) : uniquePaths (acquireStep a p o n st).2 := by
  have h1 : uniquePaths (sweepLocks n st) := uniquePaths_filter _ st h
  unfold acquireStep
  dsimp only
  cases hf : (sweepLocks n st).find? (fun r => r.file_path == p) with
  | some r => exact h1
  | none =>
    simp only [uniquePaths, List.map_append, List.map_cons, List.map_nil]
    refine List.Nodup.append h1 (List.nodup_singleton _) ?_
    intro x hx hx1
    simp only [List.mem_singleton] at hx1
    subst hx1
    rcases List.mem_map.mp hx with ⟨r, hr, hrp⟩
    have := List.find?_eq_none.mp hf r hr
    simp only [beq_iff_eq] at this
    exact this hrp

theorem lockStep_uniquePaths (st : List LockRow) (op : LockOp)
    (h : uniquePaths st) : uniquePaths (lockStep st op) := by
  cases op with
  | poll a p o n => exact acquireStep_uniquePaths a p o n st h
  | rel a p => exact uniquePaths_filter _ st h
  | list n => exact uniquePaths_filter _ st h

theorem runLockOps_uniquePaths (ops : List LockOp) :
    ∀ st : List LockRow, uniquePaths st → uniquePaths (runLockOps st ops) := by
  induction ops with
  | nil => intro st h; exact h
  | cons op ops ih =>
    intro st h
    exact ih (lockStep st op) (lockStep_uniquePaths st op h)

theorem countP_path_le_one (st : List LockRow) (h : uniquePaths st)
    (path : String) :
    st.countP (fun r => r.file_path == path) ≤ 1 := by
  have hc : st.countP (fun r => r.file_path == path) =
      (st.map (fun r => r.file_path)).count path := by
    rw [List.count, List.countP_map]
    rfl
  rw [hc]
  exact List.nodup_iff_count_le_one.mp h path

/-- C1: starting from an empty `file_locks` table, every interleaving of
`acquire_lock` poll iterations, `release_lock` calls and `get_all_locks`
sweeps keeps at most one row per `file_path` (the acquire body inserts
only after observing no row for the path), hence at most one live
(non-expired) lock row exists per `file_path` at any instant. -/
theorem lock_at_most_one_row_per_resource (ops : List LockOp) :
    uniquePaths (runLockOps [] ops) ∧
    ∀ (now : Int) (path : String),
      (runLockOps [] ops).countP
        (fun r => r.file_path == path && !(r.expires_at < now : Bool)) ≤ 1 := by
  have hu : uniquePaths (runLockOps [] ops) :=
    runLockOps_uniquePaths ops [] (by simp [uniquePaths])
  refine ⟨hu, ?_⟩
  intro now path
  calc (runLockOps [] ops).countP
        (fun r => r.file_path == path && !(r.expires_at < now : Bool))
      ≤ (runLockOps [] ops).countP (fun r => r.file_path == path) := by
        apply List.countP_mono_left
        intro r _ hr
        exact (Bool.and_elim_left hr)
    _ ≤ 1 := countP_path_le_one _ hu path

/-- C6 (amended): `release_lock` deletes the lock row for `path` held by
`agent` and returns true exactly when such a row was present, whether or
not its lease has expired (the statement checks no expiry); it returns
false (a no-op) when no row for `path` held by `agent` exists, e.g.
after the row was swept or taken by another agent. -/
theorem release_true_iff_row_present (agent path : String)
    (st : List LockRow) :
    ((release_lock agent path st).1 = true ↔
      ∃ r ∈ st, r.file_path = path ∧ r.agent_id = agent) ∧
    ∀ r ∈ (release_lock agent path st).2,
      ¬(r.file_path = path ∧ r.agent_id = agent) := by
  constructor
  · simp only [release_lock, decide_eq_true_eq, List.countP_pos_iff,
      Bool.and_eq_true, beq_iff_eq]
  · intro r hr
    simp only [release_lock, List.mem_filter, Bool.not_eq_eq_eq_not,
      Bool.not_true, Bool.and_eq_false_iff, beq_eq_false_iff_ne,
      ne_eq] at hr
    rcases hr.2 with h | h
    · exact fun hc => h hc.1
    · exact fun hc => h hc.2

/-- C6 counterexample: the single lock row for file "f" is held by agent
"a" with `expires_at = 300`; at time 400 the lease has expired, yet
`release_lock "a" "f"` still removes the row and returns true — the
claim says it must return false once the caller's lease has expired. -/
theorem release_after_expiry_returns_true :
    (∀ r ∈ ([⟨"f", "a", "write", 0, 300⟩] : List LockRow),
        r.expires_at < 400) ∧
    (release_lock "a" "f" [⟨"f", "a", "write", 0, 300⟩]).1 = true ∧
    (release_lock "a" "f" [⟨"f", "a", "write", 0, 300⟩]).2 = [] := by
  refine ⟨?_, by decide, by decide⟩
  intro r hr
  simp only [List.mem_singleton] at hr
  subst hr
  decide

/-- C7: a lock row whose lease has passed is reacquirable without an
explicit release: if every row for `path` has `expires_at < t` at the
first poll time `t`, and `t` is within the acquire deadline, then the
poll's lazy-expiry sweep deletes the stale row(s) and `acquire_lock`
inserts a fresh lock for the caller and returns true. -/
theorem acquire_succeeds_after_expiry (agent path oper : String)
    (timeout start t : Int) (ts : List Int) (st : List LockRow)
    (hexp : ∀ r ∈ st, r.file_path = path → r.expires_at < t)
    (hdl : t - start < timeout) :
    (acquire_lock agent path oper timeout start (t :: ts) st).1 = true ∧
    (⟨path, agent, oper, t, t + lock_expiration⟩ : LockRow) ∈
      (acquire_lock agent path oper timeout start (t :: ts) st).2 := by
  have hnone : (sweepLocks t st).find? (fun r => r.file_path == path) = none := by
    apply List.find?_eq_none.mpr
    intro r hr
    simp only [sweepLocks, List.mem_filter, Bool.not_eq_eq_eq_not,
      Bool.not_true, decide_eq_false_iff_not, not_lt] at hr
    simp only [beq_iff_eq]
    intro hp
    exact absurd (hexp r hr.1 hp) (not_lt.mpr hr.2)
  have hstep : acquireStep agent path oper t st =
      (true, sweepLocks t st ++ [⟨path, agent, oper, t, t + lock_expiration⟩]) := by
    unfold acquireStep
    dsimp only
    rw [hnone]
  unfold acquire_lock
  rw [if_pos hdl, hstep]
  exact ⟨rfl, List.mem_append_right _ (List.mem_singleton_self _)⟩

/-- C7 witness: a concrete expired lock is reacquired on the first poll. -/
theorem acquire_succeeds_after_expiry_witness :
    (acquire_lock "b" "f" "write" 30 400 [400]
        [⟨"f", "a", "write", 0, 300⟩]).1 = true ∧
    (⟨"f", "b", "write", 400, 400 + lock_expiration⟩ : LockRow) ∈
      (acquire_lock "b" "f" "write" 30 400 [400]
        [⟨"f", "a", "write", 0, 300⟩]).2 :=
  acquire_succeeds_after_expiry "b" "f" "write" 30 400 400 []
    [⟨"f", "a", "write", 0, 300⟩]
    (by intro r hr _; simp only [List.mem_singleton] at hr; subst hr; decide)
    (by decide)

/-- C5 (amended): `cleanup_stale_agents` removes exactly the agents whose
heartbeat age strictly exceeds the timeout (`now - last_heartbeat > θ`,
i.e. `last_heartbeat < now - θ`), returns that count, and is idempotent:
repeating it on its own output at the same instant removes 0 more.  An
agent at exactly `now - last_heartbeat = θ` fails the liveness test yet
is NOT removed. -/
theorem cleanup_removes_exactly_strictly_stale (θ now : Int)
    (st : List AgentRow) :
    (∀ r ∈ (cleanup_stale_agents θ now st).2, ¬(θ < now - r.last_heartbeat)) ∧
    (∀ r ∈ st, ¬(θ < now - r.last_heartbeat) →
      r ∈ (cleanup_stale_agents θ now st).2) ∧
    (cleanup_stale_agents θ now st).1 =
      st.countP (fun r => decide (θ < now - r.last_heartbeat)) ∧
    cleanup_stale_agents θ now (cleanup_stale_agents θ now st).2 =
      (0, (cleanup_stale_agents θ now st).2) := by
  have hiff : ∀ r : AgentRow, r.last_heartbeat < now - θ ↔ θ < now - r.last_heartbeat := by
    intro r; omega
  refine ⟨?_, ?_, ?_, ?_⟩
  · intro r hr
    simp only [cleanup_stale_agents, List.mem_filter, Bool.not_eq_eq_eq_not,
      Bool.not_true, decide_eq_false_iff_not] at hr
    exact fun hc => hr.2 ((hiff r).mpr hc)
  · intro r hr hc
    simp only [cleanup_stale_agents, List.mem_filter, Bool.not_eq_eq_eq_not,
      Bool.not_true, decide_eq_false_iff_not]
    exact ⟨hr, fun hx => hc ((hiff r).mp hx)⟩
  · simp only [cleanup_stale_agents]
    apply List.countP_congr
    intro r _
    simp only [decide_eq_true_eq]
    exact hiff r
  · simp only [cleanup_stale_agents, Prod.mk.injEq]
    constructor
    · apply List.countP_eq_zero.mpr
      intro r hr
      simp only [List.mem_filter, Bool.not_eq_eq_eq_not, Bool.not_true,
        decide_eq_false_iff_not] at hr
      simp only [decide_eq_true_eq]
      exact hr.2
    · apply List.filter_eq_self.mpr
      intro r hr
      simp only [List.mem_filter] at hr
      exact hr.2

theorem claimUpd1_task_id (tid aid : String) (now : Int) (t : TaskRow) :
    (claimUpd1 tid aid now t).task_id = t.task_id := by
  unfold claimUpd1; split <;> rfl

theorem claimUpd1_assigned (tid aid : String) (now : Int) (t : TaskRow) :
    (claimUpd1 tid aid now t).assigned_agent_id = t.assigned_agent_id := by
  unfold claimUpd1; split <;> rfl

theorem completeUpd_task_id (tid result : String) (success : Bool)
    (now : Int) (t : TaskRow) :
    (completeUpd tid result success now t).task_id = t.task_id := by
  unfold completeUpd; split <;> rfl

theorem completeUpd_assigned (tid result : String) (success : Bool)
    (now : Int) (t : TaskRow) :
    (completeUpd tid result success now t).assigned_agent_id =
      t.assigned_agent_id := by
  unfold completeUpd; split <;> rfl

theorem workloadOf_bump (l : List AgentRow) (a : String) (δ : Int) :
    workloadOf (l.map (bumpWorkload a δ)) a =
      (workloadOf l a).map (fun w => w + δ) := by
  induction l with
  | nil => rfl
  | cons r l ih =>
    by_cases h : r.agent_id = a
    · simp [workloadOf, List.find?, bumpWorkload, h]
    · have hb : (r.agent_id == a) = false := by
        simp [h]
      simp only [List.map_cons, workloadOf, List.find?, bumpWorkload, hb,
        Bool.false_eq_true, if_false]
      exact ih

/-- C3 (amended): `claim_task` sets status `claimed` and records
`claimed_at` on every task row whose id matches and whose
`assigned_agent_id` is `aid` or null (regardless of prior status),
assigning the task to `aid` when it was null (first claimer wins); but
it returns true iff a row with the id and a NULL `assigned_agent_id`
existed — `cursor.rowcount` is read after the second UPDATE only — so
claiming a task already assigned to the same agent performs the
transition yet returns false. -/
theorem claim_return_value_and_transition (tid aid : String) (now : Int)
    (st : Store) :
    ((claim_task tid aid now st).1 = true ↔
      ∃ t ∈ st.tasks, t.task_id = tid ∧ t.assigned_agent_id = none) ∧
    ∀ t ∈ st.tasks, t.task_id = tid →
      (t.assigned_agent_id = some aid ∨ t.assigned_agent_id = none) →
      ({ t with
          status := "claimed", claimed_at := some now,
          assigned_agent_id := some aid } : TaskRow) ∈
        (claim_task tid aid now st).2.tasks := by
  have hcount : (st.tasks.map (claimUpd1 tid aid now)).countP
      (fun t => t.task_id == tid && t.assigned_agent_id == none) =
      st.tasks.countP
        (fun t => t.task_id == tid && t.assigned_agent_id == none) := by
    rw [List.countP_map]
    apply List.countP_congr
    intro t _
    simp only [Function.comp_apply, claimUpd1_task_id, claimUpd1_assigned]
  constructor
  · have h1 : (claim_task tid aid now st).1 = decide (0 < st.tasks.countP
        (fun t => t.task_id == tid && t.assigned_agent_id == none)) := by
      unfold claim_task
      dsimp only
      rw [hcount]
    rw [h1]
    simp only [decide_eq_true_eq, List.countP_pos_iff, Bool.and_eq_true,
      beq_iff_eq]
  · intro t ht htid hass
    have hmem : claimUpd2 tid aid (claimUpd1 tid aid now t) ∈
        (claim_task tid aid now st).2.tasks :=
      List.mem_map_of_mem _ (List.mem_map_of_mem _ ht)
    have heq : claimUpd2 tid aid (claimUpd1 tid aid now t) =
        { t with
          status := "claimed", claimed_at := some now,
          assigned_agent_id := some aid } := by
      obtain ⟨tI, ty, de, rc, pr, sB, pa, asg, ca, cl, co, re, su⟩ := t
      dsimp only at htid hass ⊢
      subst htid
      rcases hass with h | h <;> subst h <;>
        simp [claimUpd1, claimUpd2]
    rw [heq] at hmem
    exact hmem

/-- C3 counterexample: one task assigned to agent "a" with status
`pending`; `claim_task "t1" "a"` performs the pending→claimed transition
(the status query afterwards reads `claimed`) yet returns false, so the
claim "returns true if and only if such a transition actually occurred"
is false on the code. -/
theorem claim_by_assigned_agent_returns_false :
    (claim_task "t1" "a" 5
      ⟨[], [⟨"t1", "ty", "d", [], 5, "pending", none, some "a", 0,
        none, none, none, true⟩]⟩).1 = false ∧
    (get_task_status "t1" (claim_task "t1" "a" 5
      ⟨[], [⟨"t1", "ty", "d", [], 5, "pending", none, some "a", 0,
        none, none, none, true⟩]⟩).2).map (fun v => v.status) =
      some "claimed" ∧
    (get_task_status "t1"
      ⟨[], [⟨"t1", "ty", "d", [], 5, "pending", none, some "a", 0,
        none, none, none, true⟩]⟩).map (fun v => v.status) =
      some "pending" := by
  refine ⟨by decide, by decide, by decide⟩

theorem nonneg_after_optional_bump (agents : List AgentRow)
    (o : Option String) (h : ∀ r ∈ agents, 0 ≤ r.workload) :
    ∀ r ∈ ((match o with
            | some a => agents.map (bumpWorkload a 1)
            | none => agents) : List AgentRow), 0 ≤ r.workload := by
  cases o with
  | none => exact h
  | some a =>
    intro r hr
    rcases List.mem_map.mp hr with ⟨q, hq, rfl⟩
    unfold bumpWorkload
    split
    · have := h q hq
      dsimp only
      omega
    · exact h q hq

theorem sysStep_workloadsNonneg (st : Store) (op : SysOp)
    (h : workloadsNonneg st) : workloadsNonneg (sysStep st op) := by
  cases op with
  | reg aid caps s n =>
    intro r hr
    rcases List.mem_append.mp hr with h1 | h1
    · exact h r (List.mem_of_mem_filter h1)
    · simp only [List.mem_singleton] at h1
      subst h1
      exact le_refl 0
  | hb aid s n =>
    intro r hr
    rcases List.mem_map.mp hr with ⟨q, hq, rfl⟩
    have hw := h q hq
    dsimp only
    split <;> exact hw
  | deleg tid d ty rc p par n =>
    exact nonneg_after_optional_bump st.agents _ h
  | claim tid aid n =>
    exact h

/-- C4 (amended): every agent's workload stays ≥ 0 in every state
reachable by sequences of register, heartbeat, delegate and claim calls
from a state with non-negative workloads; `complete_task`, however,
decrements unconditionally whenever the task row exists with an
assigned agent, so even a purely sequential delegate followed by two
complete calls on the same task drives the workload to −1 (see the
counterexample). -/
theorem workload_nonneg_without_complete (ops : List SysOp) :
    ∀ st : Store, workloadsNonneg st → workloadsNonneg (runSys st ops) := by
  induction ops with
  | nil => exact fun st h => h
  | cons op ops ih =>
    exact fun st h => ih (sysStep st op) (sysStep_workloadsNonneg st op h)

/-- C4 witness: a concrete register/delegate/claim run keeps workloads
non-negative. -/
theorem workload_nonneg_without_complete_witness :
    workloadsNonneg (runSys ⟨[], []⟩
      [.reg "a" ["c".data] "s" 0,
       .deleg "t1" "d" "ty" ["c".data] 5 none 0,
       .claim "t1" "a" 1]) :=
  workload_nonneg_without_complete
    [.reg "a" ["c".data] "s" 0,
     .deleg "t1" "d" "ty" ["c".data] 5 none 0,
     .claim "t1" "a" 1] ⟨[], []⟩
    (fun r hr => absurd hr (List.not_mem_nil r))

/-- C4 counterexample: the purely sequential run register("a"),
delegate(requires ["c"]) — which assigns to "a" and sets its workload
to 1 — followed by two complete calls on the same returned task leaves
agent "a" with workload −1, contradicting the claim that workload stays
≥ 0 in sequential executions (and in particular under delegate followed
by two completes of one task). -/
theorem double_complete_drives_workload_negative :
    workloadOf ((complete_task "t1" "r" true 2
      (complete_task "t1" "r" true 1
        (delegate_task "t1" "d" "ty" ["c".data] 5 none 0
          ⟨(register_agent "a" ["c".data] "active" 0 []).2, []⟩).2).2).2).agents
      "a" = some (-1) := by decide

/-- C8: a delegate call whose `required_capabilities` is empty (falsy)
or matches no live capable agent creates the task with `assigned_agent
= null` and status `pending`, returns exactly those values with the
generated `task_id`, leaves every agent row untouched, and a subsequent
`get_task_status` on that id reads back `assigned_agent_id = null` and
status `pending`. -/
theorem delegate_no_match_pending (tid descr ttype : String)
    (reqCaps : List PyStr) (priority : Int) (parent : Option String)
    (now : Int) (st : Store)
    (hfresh : ∀ t ∈ st.tasks, ¬ t.task_id = tid)
    (hnone : reqCaps = [] ∨ delegEligible now reqCaps st.agents = []) :
    (delegate_task tid descr ttype reqCaps priority parent now st).1 =
      ⟨tid, none, "pending"⟩ ∧
    (delegate_task tid descr ttype reqCaps priority parent now st).2.agents =
      st.agents ∧
    ∃ v, get_task_status tid
        (delegate_task tid descr ttype reqCaps priority parent now st).2 =
        some v ∧ v.assigned_agent_id = none ∧ v.status = "pending" := by
  have hassigned : (if reqCaps.isEmpty then none
      else ((delegEligible now reqCaps st.agents).head?).map
        (fun r => r.agent_id)) = (none : Option String) := by
    rcases hnone with h | h
    · subst h; rfl
    · simp [h]
  have hd : delegate_task tid descr ttype reqCaps priority parent now st =
      (⟨tid, none, "pending"⟩,
       ⟨st.agents, st.tasks ++
         [⟨tid, ttype, descr,
           (if reqCaps.isEmpty then [] else pyJoin ',' reqCaps), priority,
           "pending", parent, none, now, none, none, none, true⟩]⟩) := by
    unfold delegate_task
    dsimp only
    rw [hassigned]
  refine ⟨by rw [hd], by rw [hd], ?_⟩
  rw [hd]
  unfold get_task_status
  dsimp only
  rw [find?_append_of_none _ st.tasks _ ?_]
  · simp only [List.find?, beq_self_eq_true]
    exact ⟨_, rfl, rfl, rfl⟩
  · intro t ht
    simpa using hfresh t ht

/-- C8 witness: delegating with no required capabilities on an empty
store yields an unassigned pending task. -/
theorem delegate_no_match_pending_witness :
    (delegate_task "t1" "d" "ty" [] 5 none 0 ⟨[], []⟩).1 =
      ⟨"t1", none, "pending"⟩ :=
  (delegate_no_match_pending "t1" "d" "ty" [] 5 none 0 ⟨[], []⟩
    (fun t ht => absurd ht (List.not_mem_nil t)) (Or.inl rfl)).1

theorem insertByWorkload_perm (a : AgentRow) (l : List AgentRow) :
    (insertByWorkload a l).Perm (a :: l) := by
  induction l with
  | nil => exact List.Perm.refl _
  | cons b bs ih =>
    unfold insertByWorkload
    split
    · exact List.Perm.refl _
    · exact (ih.cons b).trans (List.Perm.swap a b bs)

theorem sortByWorkload_perm (l : List AgentRow) :
    (sortByWorkload l).Perm l := by
  induction l with
  | nil => exact List.Perm.refl _
  | cons a as ih =>
    exact (insertByWorkload_perm a (sortByWorkload as)).trans (ih.cons a)

theorem insertByWorkload_sorted (a : AgentRow) (l : List AgentRow)
    (h : l.Pairwise (fun x y => x.workload ≤ y.workload)) :
    (insertByWorkload a l).Pairwise (fun x y => x.workload ≤ y.workload) := by
  induction l with
  | nil => simp [insertByWorkload]
  | cons b bs ih =>
    unfold insertByWorkload
    split
    · rename_i hab
      apply List.Pairwise.cons
      · intro y hy
        rcases List.mem_cons.mp hy with rfl | hy
        · exact hab
        · exact le_trans hab (List.rel_of_pairwise_cons h hy)
      · exact h
    · rename_i hab
      push_neg at hab
      have hparts := List.pairwise_cons.mp h
      apply List.Pairwise.cons
      · intro y hy
        rcases List.mem_cons.mp
            ((insertByWorkload_perm a bs).mem_iff.mp hy) with rfl | hy2
        · exact le_of_lt hab
        · exact hparts.1 y hy2
      · exact ih hparts.2

theorem sortByWorkload_sorted (l : List AgentRow) :
    (sortByWorkload l).Pairwise (fun x y => x.workload ≤ y.workload) := by
  induction l with
  | nil => simp [sortByWorkload]
  | cons a as ih => exact insertByWorkload_sorted a _ ih

theorem get_active_agents_map_agent_id (capFilter : List PyStr)
    (hcf : capFilter ≠ []) (θ now : Int) (l : List AgentRow) :
    (get_active_agents θ now capFilter l).map (fun v => v.agent_id) =
      ((l.filter (fun r => decide (now - θ < r.last_heartbeat))).filter
        (fun r => capMatch capFilter r.capabilities)).map
        (fun r => r.agent_id) := by
  have hie : capFilter.isEmpty = false := by
    cases capFilter with
    | nil => exact absurd rfl hcf
    | cons c cs => rfl
  unfold get_active_agents
  generalize (l.filter (fun r => decide (now - θ < r.last_heartbeat))) = m
  induction m with
  | nil => rfl
  | cons r m ih =>
    simp only [List.filterMap_cons, List.filter_cons]
    cases h : capMatch capFilter r.capabilities with
    | true =>
      have hcond : (capFilter.isEmpty ||
          capFilter.all (fun c => (parseCaps r.capabilities).contains c)) =
          true := by
        rw [hie, Bool.false_or]
        exact h
      simp only [hcond, if_true, List.map_cons, h]
      rw [ih]
    | false =>
      have hcond : (capFilter.isEmpty ||
          capFilter.all (fun c => (parseCaps r.capabilities).contains c)) =
          false := by
        rw [hie, Bool.false_or]
        exact h
      simp only [hcond, if_false, h]
      exact ih

/-- C2 (amended): for every store and non-empty `required_capabilities`,
the set of agents `delegate_task` considers eligible coincides (as a
multiset of agent ids) with `get_active_agents` evaluated with the
60-second window hardcoded in `delegate_task` — NOT with the
HeartbeatMonitor's configured `timeout_seconds`, to which the claimed
equivalence fails (see the counterexample); and whenever delegate
assigns an agent, that agent is a minimum-workload member of the
eligible set and its workload is incremented by exactly 1. -/
theorem delegate_eligible_min_workload (st : Store) (now : Int)
    (reqCaps : List PyStr) (hreq : reqCaps ≠ []) :
    ((delegEligible now reqCaps st.agents).map (fun r => r.agent_id)).Perm
      ((get_active_agents 60 now reqCaps st.agents).map
        (fun v => v.agent_id)) ∧
    ∀ tid descr ttype priority parent a,
      (delegate_task tid descr ttype reqCaps priority parent now
        st).1.assigned_agent = some a →
      (∃ r ∈ delegEligible now reqCaps st.agents, r.agent_id = a ∧
        ∀ q ∈ delegEligible now reqCaps st.agents,
          r.workload ≤ q.workload) ∧
      workloadOf (delegate_task tid descr ttype reqCaps priority parent now
          st).2.agents a = (workloadOf st.agents a).map (fun w => w + 1) := by
  have hie : reqCaps.isEmpty = false := by
    cases reqCaps with
    | nil => exact absurd rfl hreq
    | cons c cs => rfl
  constructor
  · rw [get_active_agents_map_agent_id reqCaps hreq 60 now st.agents]
    exact List.Perm.map _ (List.Perm.filter _ (sortByWorkload_perm _))
  · intro tid descr ttype priority parent a ha
    have hass : (if reqCaps.isEmpty then none
        else ((delegEligible now reqCaps st.agents).head?).map
          (fun r => r.agent_id)) = some a := ha
    rw [hie] at hass
    simp only [Bool.false_eq_true, if_false] at hass
    cases hE : delegEligible now reqCaps st.agents with
    | nil => rw [hE] at hass; exact absurd hass (by simp)
    | cons r rest =>
      rw [hE] at hass
      simp only [List.head?_cons, Option.map_some'] at hass
      have hsorted : (delegEligible now reqCaps st.agents).Pairwise
          (fun x y => x.workload ≤ y.workload) :=
        List.Pairwise.sublist (List.filter_sublist _) (sortByWorkload_sorted _)
      rw [hE] at hsorted
      have hparts := List.pairwise_cons.mp hsorted
      have hra : r.agent_id = a := Option.some.inj hass
      constructor
      · refine ⟨r, List.mem_cons_self r rest, hra, ?_⟩
        intro q hq
        rcases List.mem_cons.mp hq with rfl | hq2
        · exact le_refl _
        · exact hparts.1 q hq2
      · have h2 : (delegate_task tid descr ttype reqCaps priority parent now
            st).2.agents = st.agents.map (bumpWorkload a 1) := by
          unfold delegate_task
          dsimp only
          rw [hie]
          simp only [Bool.false_eq_true, if_false, hE, List.head?_cons,
            Option.map_some', hass]
        rw [h2]
        exact workloadOf_bump st.agents a 1

/-- C2 witness: one live capable agent; the eligible-id multisets agree
at the 60-second window. -/
theorem delegate_eligible_min_workload_witness :
    ((delegEligible 100 ["c".data]
        (⟨[⟨"a", "c".data, "active", 100, 100, 0⟩], []⟩ : Store).agents).map
      (fun r => r.agent_id)).Perm
      ((get_active_agents 60 100 ["c".data]
        (⟨[⟨"a", "c".data, "active", 100, 100, 0⟩], []⟩ : Store).agents).map
        (fun v => v.agent_id)) :=
  (delegate_eligible_min_workload ⟨[⟨"a", "c".data, "active", 100, 100, 0⟩], []⟩
    100 ["c".data] (by decide)).1

/-- C2 counterexample: HeartbeatMonitor configured with
`timeout_seconds = 10`; the agent's heartbeat is 30 seconds old at
`now = 100`, so `get_active_agents` (liveAgents) returns nothing, yet
`delegate_task` — which hardcodes a 60-second cutoff instead of the
configured timeout — still considers it eligible and assigns it. -/
theorem delegate_ignores_configured_timeout :
    (delegate_task "t1" "d" "ty" ["c".data] 5 none 100
      ⟨[⟨"a", "c".data, "active", 70, 70, 0⟩], []⟩).1.assigned_agent =
      some "a" ∧
    get_active_agents 10 100 ["c".data]
      [(⟨"a", "c".data, "active", 70, 70, 0⟩ : AgentRow)] = [] := by
  refine ⟨by decide, by decide⟩

/-- C9: when exactly one live capable agent exists for a delegate call,
delegate assigns the task to it and increments its workload by exactly
1, and a subsequent complete on the returned (fresh) task id returns
true, decrements the same agent's workload by exactly 1 and restores
the workload held before the delegate call. -/
theorem delegate_complete_workload_neutral (tid descr ttype result : String)
    (reqCaps : List PyStr) (priority : Int) (parent : Option String)
    (now now2 : Int) (st : Store) (success : Bool) (a : AgentRow)
    (hreq : reqCaps ≠ [])
    (helig : delegEligible now reqCaps st.agents = [a])
    (hfresh : ∀ t ∈ st.tasks, ¬ t.task_id = tid) :
    (delegate_task tid descr ttype reqCaps priority parent now
      st).1.assigned_agent = some a.agent_id ∧
    workloadOf (delegate_task tid descr ttype reqCaps priority parent now
        st).2.agents a.agent_id =
      (workloadOf st.agents a.agent_id).map (fun w => w + 1) ∧
    (complete_task tid result success now2
      (delegate_task tid descr ttype reqCaps priority parent now st).2).1 =
      true ∧
    workloadOf (complete_task tid result success now2
        (delegate_task tid descr ttype reqCaps priority parent now
          st).2).2.agents a.agent_id = workloadOf st.agents a.agent_id := by
  have hie : reqCaps.isEmpty = false := by
    cases reqCaps with
    | nil => exact absurd rfl hreq
    | cons c cs => rfl
  have hass : (if reqCaps.isEmpty then none
      else ((delegEligible now reqCaps st.agents).head?).map
        (fun r => r.agent_id)) = some a.agent_id := by
    rw [hie, helig]
    simp
  have h2 : (delegate_task tid descr ttype reqCaps priority parent now
      st).2 = ⟨st.agents.map (bumpWorkload a.agent_id 1),
        st.tasks ++ [⟨tid, ttype, descr,
          (if reqCaps.isEmpty then [] else pyJoin ',' reqCaps), priority,
          "pending", parent, some a.agent_id, now, none, none, none,
          true⟩]⟩ := by
    unfold delegate_task
    dsimp only
    rw [hass]
  have hfind : ((st.tasks ++ [(⟨tid, ttype, descr,
      (if reqCaps.isEmpty then [] else pyJoin ',' reqCaps), priority,
      "pending", parent, some a.agent_id, now, none, none, none,
      true⟩ : TaskRow)]).map
        (completeUpd tid result success now2)).find?
      (fun t => t.task_id == tid) =
      some (completeUpd tid result success now2
        ⟨tid, ttype, descr,
          (if reqCaps.isEmpty then [] else pyJoin ',' reqCaps), priority,
          "pending", parent, some a.agent_id, now, none, none, none,
          true⟩) := by
    rw [List.map_append]
    rw [find?_append_of_none]
    · simp only [List.map_cons, List.map_nil, List.find?]
      rw [completeUpd_task_id]
      simp
    · intro t ht
      rcases List.mem_map.mp ht with ⟨q, hq, rfl⟩
      rw [completeUpd_task_id]
      simp [hfresh q hq]
  refine ⟨hass, ?_, ?_, ?_⟩
  · rw [h2]
    exact workloadOf_bump st.agents a.agent_id 1
  · rw [h2]
    unfold complete_task
    dsimp only
    rw [List.countP_append]
    simp [List.countP_cons]
  · rw [h2]
    unfold complete_task
    dsimp only
    rw [hfind]
    simp only [Option.some_bind, completeUpd_assigned]
    rw [workloadOf_bump, workloadOf_bump]
    cases workloadOf st.agents a.agent_id with
    | none => rfl
    | some w =>
      simp only [Option.map_some']
      congr 1
      omega

/-- C9 witness: one registered live capable agent at workload 0;
delegate then complete returns the workload to 0. -/
theorem delegate_complete_workload_neutral_witness :
    workloadOf (complete_task "t1" "r" true 101
        (delegate_task "t1" "d" "ty" ["c".data] 5 none 100
          ⟨[⟨"a", "c".data, "active", 100, 100, 0⟩], []⟩).2).2.agents "a" =
      workloadOf [(⟨"a", "c".data, "active", 100, 100, 0⟩ : AgentRow)] "a" :=
  (delegate_complete_workload_neutral "t1" "d" "ty" "r" ["c".data] 5 none
    100 101 ⟨[⟨"a", "c".data, "active", 100, 100, 0⟩], []⟩ true
    ⟨"a", "c".data, "active", 100, 100, 0⟩ (by decide) (by decide)
    (fun t ht => absurd ht (List.not_mem_nil t))).2.2.2

/-- C5 counterexample: with `θ = 60` and `now = 100`, an agent whose
`last_heartbeat = 40` has heartbeat age exactly 60, so it fails the
liveness test (`now - last_heartbeat ≥ θ`), yet `cleanup_stale_agents`
removes nothing: the claim that the sweep deletes every agent with
`now - last_heartbeat ≥ liveness_timeout` is false at the boundary. -/
theorem pySplitAux_no_sep (sep : Char) (s : PyStr) (acc : PyStr)
    (h : sep ∉ s) : pySplitAux sep s acc = [acc.reverse ++ s] := by
  induction s generalizing acc with
  | nil => simp [pySplitAux]
  | cons c cs ih =>
    have hc : ¬ c = sep := fun hc => h (hc ▸ List.mem_cons_self c cs)
    simp only [pySplitAux, if_neg hc]
    rw [ih (c :: acc) (fun hm => h (List.mem_cons_of_mem c hm))]
    simp

theorem pySplitAux_sep_block (sep : Char) (x rest : PyStr) (acc : PyStr)
    (hx : sep ∉ x) :
    pySplitAux sep (x ++ sep :: rest) acc =
      (acc.reverse ++ x) :: pySplitAux sep rest [] := by
  induction x generalizing acc with
  | nil => simp [pySplitAux]
  | cons c cs ih =>
    have hc : ¬ c = sep := fun hc => hx (hc ▸ List.mem_cons_self c cs)
    simp only [List.cons_append, pySplitAux, if_neg hc, List.append_eq]
    rw [ih (c :: acc) (fun hm => hx (List.mem_cons_of_mem c hm))]
    simp

theorem pySplit_pyJoin (l : List PyStr) (hl : l ≠ [])
    (h : ∀ t ∈ l, ',' ∉ t) : pySplit ',' (pyJoin ',' l) = l := by
  induction l with
  | nil => exact absurd rfl hl
  | cons x xs ih =>
    cases xs with
    | nil =>
      simp only [pyJoin, pySplit]
      rw [pySplitAux_no_sep ',' x [] (h x (List.mem_cons_self x []))]
      simp
    | cons y ys =>
      simp only [pyJoin, pySplit]
      rw [pySplitAux_sep_block ',' x (pyJoin ',' (y :: ys)) []
        (h x (List.mem_cons_self x (y :: ys)))]
      have := ih (by simp) (fun t ht => h t (List.mem_cons_of_mem x ht))
      simp only [pySplit] at this
      simp [this]

theorem pyJoin_ne_nil (l : List PyStr) (hl : l ≠ [])
    (hne : ∀ t ∈ l, t ≠ []) : pyJoin ',' l ≠ [] := by
  cases l with
  | nil => exact absurd rfl hl
  | cons x xs =>
    cases xs with
    | nil => exact hne x (List.mem_cons_self x [])
    | cons y ys => simp [pyJoin]

theorem parseCaps_pyJoin (l : List PyStr)
    (h : ∀ t ∈ l, t ≠ [] ∧ ',' ∉ t) : parseCaps (pyJoin ',' l) = l := by
  cases hl : l with
  | nil => simp [pyJoin, parseCaps]
  | cons x xs =>
    subst hl
    have hne : pyJoin ',' (x :: xs) ≠ [] :=
      pyJoin_ne_nil (x :: xs) (by simp) (fun t ht => (h t ht).1)
    simp only [parseCaps, if_neg hne]
    exact pySplit_pyJoin (x :: xs) (by simp) (fun t ht => (h t ht).2)

/-- C10: capabilities are persisted as one comma-joined string, so
registration round-trips through `get_agent_status` and
`get_active_agents` exactly for lists of non-empty comma-free tags (or
the empty list), while a tag containing a comma — here `"a,b"` — is
read back as the two separate tags `"a"` and `"b"`. -/
theorem register_capabilities_roundtrip (st : List AgentRow)
    (aid status : String) (l : List PyStr) (θ now : Int)
    (hcaps : ∀ t ∈ l, t ≠ [] ∧ ',' ∉ t) (hθ : 0 < θ) :
    ((get_agent_status θ now aid (register_agent aid l status now st).2).map
        (fun v => v.capabilities) = some l) ∧
    (∃ v ∈ get_active_agents θ now [] (register_agent aid l status now st).2,
      v.agent_id = aid ∧ v.capabilities = l) ∧
    ((get_agent_status 60 0 "b" (register_agent "b" ["a,b".data] "s" 0 []).2).map
        (fun v => v.capabilities) = some ["a".data, "b".data]) := by
  have hfind : ((register_agent aid l status now st).2).find?
      (fun r => r.agent_id == aid) =
      some ⟨aid, pyJoin ',' l, status, now, now, 0⟩ := by
    unfold register_agent
    dsimp only
    rw [find?_append_of_none]
    · simp [List.find?]
    · intro r hr
      simp only [List.mem_filter, Bool.not_eq_eq_eq_not, Bool.not_true,
        beq_eq_false_iff_ne, ne_eq] at hr
      simp [hr.2]
  refine ⟨?_, ?_, by decide⟩
  · simp only [get_agent_status, hfind, Option.map_some']
    rw [parseCaps_pyJoin l hcaps]
  · refine ⟨⟨aid, parseCaps (pyJoin ',' l), status, now, now, 0, now - now⟩,
      ?_, rfl, ?_⟩
    · apply List.mem_filterMap.mpr
      refine ⟨⟨aid, pyJoin ',' l, status, now, now, 0⟩, ?_, ?_⟩
      · apply List.mem_filter.mpr
        refine ⟨List.mem_append_right _ (List.mem_singleton_self _), ?_⟩
        simp only [decide_eq_true_eq]
        omega
      · simp
    · exact parseCaps_pyJoin l hcaps

/-- C10 witness: a concrete registration with one comma-free tag reads
back unchanged. -/
theorem register_capabilities_roundtrip_witness :
    (get_agent_status 60 0 "w" (register_agent "w" ["sec".data] "s" 0 []).2).map
      (fun v => v.capabilities) = some ["sec".data] :=
  (register_capabilities_roundtrip [] "w" "s" ["sec".data] 60 0
    (by decide) (by decide)).1

theorem sweep_keeps_boundary_agent :
    ((60 : Int) ≤ 100 - (⟨"a", [], "s", 40, 0, 0⟩ : AgentRow).last_heartbeat) ∧
    cleanup_stale_agents 60 100 [⟨"a", [], "s", 40, 0, 0⟩] =
      (0, [⟨"a", [], "s", 40, 0, 0⟩]) ∧
    get_active_agents 60 100 [] [(⟨"a", [], "s", 40, 0, 0⟩ : AgentRow)] = [] := by
  refine ⟨by decide, by decide, by decide⟩

end Coordination
